import Mathlib

/-!
Verification of the batch-dispatch core of the llmops-e2e-langchain repository.

The development shallowly embeds the control-plane logic of
`src/vectorstore.py` and `src/ingestion.py`:

* `findFit` / `embedLoopF` / `embedBatches` — the adaptive token-budget
  batching loop of `VertexAIEmbeddings.embed_documents`;
* `predictWithRetry` / `addBatch` — the two bounded-retry loops
  (`VertexAIEmbeddings._predict_with_retry` and `add_batch`);
* `evictOld` / `rateAdmit` — the sliding-window rate-limiter section of
  `add_batch`;
* an interleaving small-step semantics of concurrent rate-limiter callers;
* `indexDocumentsAsync` — the orchestrator `index_documents_async`.

Texts are abstracted to an opaque type `α` together with a cost function
`cost : α → Nat` standing for `count_tokens` (a pure external tokenizer).
The downstream Vertex AI predict call is abstracted to a function producing
one embedding per instance, per the service contract.  Wall-clock times are
rationals (for the single-caller rate-limiter model) or integer milliseconds
(for the concurrent interleaving model).
-/

/-! ## Adaptive batching: `VertexAIEmbeddings.embed_documents`

Source (src/vectorstore.py, lines 96-137):

```
results = []
i = 0
while i < len(texts):
    current_batch_size = self.batch_size
    while current_batch_size > 0:
        batch = texts[i:i+current_batch_size]
        total_tokens = sum(count_tokens(t) for t in batch)
        if total_tokens <= self.max_tokens:
            response = self._predict_with_retry(instances)
            results.extend(batch_embeddings)
            i += current_batch_size
            break
        else:
            current_batch_size -= 1
    if current_batch_size == 0:
        log_warning("Skipping document at index i, exceeds max_tokens alone")
        i += 1
return results
```
-/

/-- Total token cost of a batch: `sum(count_tokens(t) for t in batch)`. -/
def batchCost {α : Type} (cost : α → Nat) (b : List α) : Nat :=
  (b.map cost).sum

/-- The inner `while current_batch_size > 0` loop: starting from size `n`,
find the largest size `s ≤ n` whose leading `s` items of `rest` have total
cost `≤ T`, decrementing by 1 on each overflow.  Returns `none` when the
size reaches 0 (the item at the cursor alone exceeds the budget, or `n = 0`). -/
def findFit {α : Type} (cost : α → Nat) (T : Nat) (rest : List α) : Nat → Option Nat
  | 0 => none
  | n + 1 =>
    if batchCost cost (rest.take (n + 1)) ≤ T then some (n + 1)
    else findFit cost T rest n

/-- The outer `while i < len(texts)` loop of `embed_documents`, with fuel
(the loop terminates because the cursor strictly advances; fuel
`≥ length` suffices).  `i` is the absolute cursor index, kept for the skip
log.  Returns the list of submitted batches and the list of skipped
`(index, item)` pairs, in order. -/
def embedLoopF {α : Type} (cost : α → Nat) (G T : Nat) :
    Nat → Nat → List α → List (List α) × List (Nat × α)
  | 0, _, _ => ([], [])
  | _ + 1, _, [] => ([], [])
  | fuel + 1, i, x :: rest =>
    match findFit cost T (x :: rest) G with
    | some s =>
      let out := embedLoopF cost G T fuel (i + s) ((x :: rest).drop s)
      ((x :: rest).take s :: out.1, out.2)
    | none =>
      let out := embedLoopF cost G T fuel (i + 1) rest
      (out.1, (i, x) :: out.2)

/-- The batches that `embed_documents` submits to `_predict_with_retry`,
in submission order. -/
def embedBatches {α : Type} (cost : α → Nat) (G T : Nat) (texts : List α) :
    List (List α) :=
  (embedLoopF cost G T texts.length 0 texts).1

/-- The `(index, item)` pairs skipped with a warning by `embed_documents`. -/
def embedSkipped {α : Type} (cost : α → Nat) (G T : Nat) (texts : List α) :
    List (Nat × α) :=
  (embedLoopF cost G T texts.length 0 texts).2

/-- The `results` list returned by `embed_documents`: per submitted batch,
the predict response contributes one embedding per instance in order
(service contract, spec section 6), and `results.extend` concatenates them. -/
def embedResults {α E : Type} (embed : α → E) (cost : α → Nat) (G T : Nat)
    (texts : List α) : List E :=
  ((embedBatches cost G T texts).map (List.map embed)).flatten

/-! ### Lemmas about `findFit` -/

theorem findFit_pos {α : Type} (cost : α → Nat) (T : Nat) (rest : List α) :
    ∀ n s, findFit cost T rest n = some s → 1 ≤ s ∧ s ≤ n := by
  intro n
  induction n with
  | zero => intro s h; simp [findFit] at h
  | succ n ih =>
    intro s h
    unfold findFit at h
    split at h
    · cases h; omega
    · have := ih s h; omega

theorem findFit_fits {α : Type} (cost : α → Nat) (T : Nat) (rest : List α) :
    ∀ n s, findFit cost T rest n = some s →
      batchCost cost (rest.take s) ≤ T := by
  intro n
  induction n with
  | zero => intro s h; simp [findFit] at h
  | succ n ih =>
    intro s h
    unfold findFit at h
    split at h
    · cases h; assumption
    · exact ih s h

theorem findFit_tried {α : Type} (cost : α → Nat) (T : Nat) (rest : List α) :
    ∀ n s, findFit cost T rest n = some s →
      ∀ k, s < k → k ≤ n → T < batchCost cost (rest.take k) := by
  intro n
  induction n with
  | zero => intro s h; simp [findFit] at h
  | succ n ih =>
    intro s h k hsk hkn
    unfold findFit at h
    split at h
    · cases h; omega
    · rcases Nat.lt_or_ge k (n + 1) with hk | hk
      · exact ih s h k hsk (by omega)
      · have : k = n + 1 := by omega
        subst this
        omega

theorem findFit_none {α : Type} (cost : α → Nat) (T : Nat) (rest : List α) :
    ∀ n, findFit cost T rest n = none →
      ∀ k, 1 ≤ k → k ≤ n → T < batchCost cost (rest.take k) := by
  intro n
  induction n with
  | zero => intro _ k _ hk; omega
  | succ n ih =>
    intro h k hk1 hkn
    unfold findFit at h
    split at h
    · exact absurd h (by simp)
    · rcases Nat.lt_or_ge k (n + 1) with hcase | hcase
      · exact ih h k hk1 (by omega)
      · have : k = n + 1 := by omega
        subst this
        omega

/-! ### Lemmas about `embedLoopF` -/

theorem embedLoopF_budget {α : Type} (cost : α → Nat) (G T : Nat) :
    ∀ fuel i l b, b ∈ (embedLoopF cost G T fuel i l).1 →
      batchCost cost b ≤ T := by
  intro fuel
  induction fuel with
  | zero => intro i l b h; simp [embedLoopF] at h
  | succ fuel ih =>
    intro i l b h
    match l with
    | [] => simp [embedLoopF] at h
    | x :: rest =>
      unfold embedLoopF at h
      cases hf : findFit cost T (x :: rest) G with
      | some s =>
        rw [hf] at h
        simp only [List.mem_cons] at h
        rcases h with h | h
        · subst h
          exact findFit_fits cost T (x :: rest) G s hf
        · exact ih (i + s) ((x :: rest).drop s) b h
      | none =>
        rw [hf] at h
        exact ih (i + 1) rest b h

theorem embedLoopF_fst_index_irrel {α : Type} (cost : α → Nat) (G T : Nat) :
    ∀ fuel i j l,
      (embedLoopF cost G T fuel i l).1 = (embedLoopF cost G T fuel j l).1 := by
  intro fuel
  induction fuel with
  | zero => intro i j l; rfl
  | succ fuel ih =>
    intro i j l
    match l with
    | [] => rfl
    | x :: rest =>
      unfold embedLoopF
      cases hf : findFit cost T (x :: rest) G with
      | some s =>
        simp only
        rw [ih (i + s) (j + s) ((x :: rest).drop s)]
      | none =>
        simp only
        exact ih (i + 1) (j + 1) rest

theorem mem_take_cost_le {α : Type} (cost : α → Nat) (T : Nat) (l : List α)
    (s : Nat) (hfit : batchCost cost (l.take s) ≤ T) :
    ∀ x ∈ l.take s, cost x ≤ T := by
  intro x hx
  have hmem : cost x ∈ (l.take s).map cost := List.mem_map_of_mem cost hx
  have hle : cost x ≤ ((l.take s).map cost).sum :=
    List.single_le_sum (fun y _ => Nat.zero_le y) (cost x) hmem
  exact le_trans hle hfit

theorem embedLoopF_flatten {α : Type} (cost : α → Nat) (G T : Nat)
    (hG : 1 ≤ G) :
    ∀ fuel i l, l.length ≤ fuel →
      (embedLoopF cost G T fuel i l).1.flatten =
        l.filter (fun x => decide (cost x ≤ T)) := by
  intro fuel
  induction fuel with
  | zero =>
    intro i l hl
    have : l = [] := List.eq_nil_of_length_eq_zero (by omega)
    subst this
    rfl
  | succ fuel ih =>
    intro i l hl
    match l with
    | [] => rfl
    | x :: rest =>
      unfold embedLoopF
      cases hf : findFit cost T (x :: rest) G with
      | some s =>
        have hpos := findFit_pos cost T (x :: rest) G s hf
        have hfit := findFit_fits cost T (x :: rest) G s hf
        simp only [List.flatten_cons]
        have hlen : ((x :: rest).drop s).length ≤ fuel := by
          rw [List.length_drop]
          simp only [List.length_cons] at hl ⊢
          omega
        rw [ih (i + s) ((x :: rest).drop s) hlen]
        have hsplit := List.take_append_drop s (x :: rest)
        have hself : ((x :: rest).take s).filter (fun x => decide (cost x ≤ T)) =
            (x :: rest).take s := by
          apply List.filter_eq_self.mpr
          intro a ha
          exact decide_eq_true (mem_take_cost_le cost T (x :: rest) s hfit a ha)
        calc (x :: rest).take s ++
              ((x :: rest).drop s).filter (fun x => decide (cost x ≤ T))
            = ((x :: rest).take s).filter (fun x => decide (cost x ≤ T)) ++
              ((x :: rest).drop s).filter (fun x => decide (cost x ≤ T)) := by
              rw [hself]
          _ = (x :: rest).filter (fun x => decide (cost x ≤ T)) := by
              rw [← List.filter_append, hsplit]
      | none =>
        have hx : T < cost x := by
          have := findFit_none cost T (x :: rest) G hf 1 le_rfl hG
          simpa [batchCost] using this
        have hlen : rest.length ≤ fuel := by
          simp only [List.length_cons] at hl
          omega
        simp only [List.filter_cons]
        have : (decide (cost x ≤ T)) = false := by
          simp [Nat.not_le.mpr hx]
        rw [this]
        simp only [Bool.false_eq_true, if_false]
        exact ih (i + 1) rest hlen

theorem embedLoopF_skipped {α : Type} (cost : α → Nat) (G T : Nat)
    (hG : 1 ≤ G) :
    ∀ fuel i l, l.length ≤ fuel →
      (embedLoopF cost G T fuel i l).2 =
        (List.enumFrom i l).filter (fun p => decide (T < cost p.2)) := by
  intro fuel
  induction fuel with
  | zero =>
    intro i l hl
    have : l = [] := List.eq_nil_of_length_eq_zero (by omega)
    subst this
    rfl
  | succ fuel ih =>
    intro i l hl
    match l with
    | [] => rfl
    | x :: rest =>
      unfold embedLoopF
      cases hf : findFit cost T (x :: rest) G with
      | some s =>
        have hpos := findFit_pos cost T (x :: rest) G s hf
        have hfit := findFit_fits cost T (x :: rest) G s hf
        simp only
        have hlen : ((x :: rest).drop s).length ≤ fuel := by
          rw [List.length_drop]
          simp only [List.length_cons] at hl ⊢
          omega
        rw [ih (i + s) ((x :: rest).drop s) hlen]
        rcases le_or_lt s (x :: rest).length with hsl | hsl
        · have hsplit := List.take_append_drop s (x :: rest)
          conv_rhs => rw [← hsplit]
          rw [List.enumFrom_append, List.filter_append]
          have htklen : ((x :: rest).take s).length = s :=
            List.length_take_of_le hsl
          rw [htklen]
          have hnone :
              (List.enumFrom i ((x :: rest).take s)).filter
                (fun p => decide (T < cost p.2)) = [] := by
            rw [List.filter_eq_nil_iff]
            intro p hp
            have hmem : p.2 ∈ (x :: rest).take s := by
              have := List.enumFrom_map_snd i ((x :: rest).take s)
              have : p.2 ∈ (List.enumFrom i ((x :: rest).take s)).map Prod.snd :=
                List.mem_map_of_mem Prod.snd hp
              rwa [List.enumFrom_map_snd] at this
            have := mem_take_cost_le cost T (x :: rest) s hfit p.2 hmem
            simp [Nat.not_lt.mpr this]
          rw [hnone, List.nil_append]
        · have hdrop : (x :: rest).drop s = [] :=
            List.drop_eq_nil_of_le (by omega)
          have htake : (x :: rest).take s = x :: rest :=
            List.take_of_length_le (by omega)
          rw [hdrop]
          simp only [List.enumFrom_nil, List.filter_nil]
          have hnone :
              (List.enumFrom i (x :: rest)).filter
                (fun p => decide (T < cost p.2)) = [] := by
            rw [List.filter_eq_nil_iff]
            intro p hp
            have hmem : p.2 ∈ (x :: rest) := by
              have : p.2 ∈ (List.enumFrom i (x :: rest)).map Prod.snd :=
                List.mem_map_of_mem Prod.snd hp
              rwa [List.enumFrom_map_snd] at this
            have hmem' : p.2 ∈ (x :: rest).take s := by rw [htake]; exact hmem
            have := mem_take_cost_le cost T (x :: rest) s hfit p.2 hmem'
            simp [Nat.not_lt.mpr this]
          rw [hnone]
      | none =>
        have hx : T < cost x := by
          have := findFit_none cost T (x :: rest) G hf 1 le_rfl hG
          simpa [batchCost] using this
        have hlen : rest.length ≤ fuel := by
          simp only [List.length_cons] at hl
          omega
        simp only [List.enumFrom_cons, List.filter_cons]
        have : (decide (T < cost x)) = true := by simp [hx]
        rw [this]
        simp only [if_true]
        rw [ih (i + 1) rest hlen]

/-! ## Bounded retry: `VertexAIEmbeddings._predict_with_retry`
(src/vectorstore.py, lines 58-94) and the retry loop of `add_batch`
(src/ingestion.py, lines 90-140).

Both loops run `for attempt in range(max_retries + 1)`.  The fallible work
is abstracted as `work : Nat → Except ε β`, giving the outcome of the call
made at each attempt index.  The fuel argument counts the loop iterations
still available, so attempt index `a` runs with fuel `maxRetries + 1 - a`;
the test `attempt == max_retries` is exactly `remaining fuel = 0` after the
current iteration.  `none` in `predictWithRetry`'s result is the trailing
`raise RuntimeError` after the loop, which is unreachable for any
`maxRetries`. -/

/-- The `for attempt in range(...)` loop of `_predict_with_retry`:
return the first success; at the last attempt, re-raise the error. -/
def predictRetryAux {ε β : Type} (work : Nat → Except ε β) :
    Nat → Nat → Option (Except ε β)
  | _, 0 => none
  | attempt, fuel + 1 =>
    match work attempt with
    | .ok b => some (.ok b)
    | .error e =>
      if fuel = 0 then some (.error e)
      else predictRetryAux work (attempt + 1) fuel

/-- `_predict_with_retry` with `max_retries = maxRetries`. -/
def predictWithRetry {ε β : Type} (work : Nat → Except ε β)
    (maxRetries : Nat) : Option (Except ε β) :=
  predictRetryAux work 0 (maxRetries + 1)

/-- The attempt indices at which `_predict_with_retry` actually calls the
prediction service. -/
def predictRetryTrace {ε β : Type} (work : Nat → Except ε β) :
    Nat → Nat → List Nat
  | _, 0 => []
  | attempt, fuel + 1 =>
    match work attempt with
    | .ok _ => [attempt]
    | .error _ =>
      if fuel = 0 then [attempt]
      else attempt :: predictRetryTrace work (attempt + 1) fuel

/-- The retry loop of `add_batch`: on success return `True`; at the last
attempt, `break` out and fall through to `return False`. -/
def addBatchAux {ε : Type} (work : Nat → Except ε Unit) : Nat → Nat → Bool
  | _, 0 => false
  | attempt, fuel + 1 =>
    match work attempt with
    | .ok _ => true
    | .error _ =>
      if fuel = 0 then false
      else addBatchAux work (attempt + 1) fuel

/-- `add_batch`'s boolean outcome for one batch, with `work a` the outcome
of `vectorstore.aadd_documents(batch)` at attempt index `a`. -/
def addBatch {ε : Type} (work : Nat → Except ε Unit) (maxRetries : Nat) :
    Bool :=
  addBatchAux work 0 (maxRetries + 1)

/-- The attempt indices at which `add_batch` actually calls
`vectorstore.aadd_documents`. -/
def addBatchTrace {ε : Type} (work : Nat → Except ε Unit) (maxRetries : Nat) :
    List Nat :=
  predictRetryTrace work 0 (maxRetries + 1)

theorem predictRetryTrace_allFail {ε β : Type} (work : Nat → Except ε β)
    (hfail : ∀ a, ∃ e, work a = .error e) :
    ∀ fuel attempt, predictRetryTrace work attempt fuel =
      List.range' attempt fuel := by
  intro fuel
  induction fuel with
  | zero => intro attempt; rfl
  | succ fuel ih =>
    intro attempt
    obtain ⟨e, he⟩ := hfail attempt
    unfold predictRetryTrace
    rw [he]
    by_cases hz : fuel = 0
    · subst hz
      simp [List.range']
    · simp only [if_neg hz]
      rw [ih (attempt + 1)]
      rfl

theorem predictRetryAux_allFail {ε β : Type} (work : Nat → Except ε β)
    (hfail : ∀ a, ∃ e, work a = .error e) :
    ∀ fuel attempt, 1 ≤ fuel →
      predictRetryAux work attempt fuel =
        some (work (attempt + fuel - 1)) := by
  intro fuel
  induction fuel with
  | zero => intro attempt h; omega
  | succ fuel ih =>
    intro attempt _
    obtain ⟨e, he⟩ := hfail attempt
    unfold predictRetryAux
    rw [he]
    by_cases hz : fuel = 0
    · subst hz
      simp [he]
    · simp only [if_neg hz]
      rw [ih (attempt + 1) (by omega)]
      have harg : attempt + 1 + fuel - 1 = attempt + (fuel + 1) - 1 := by omega
      rw [harg]

theorem addBatchAux_allFail {ε : Type} (work : Nat → Except ε Unit)
    (hfail : ∀ a, ∃ e, work a = .error e) :
    ∀ fuel attempt, addBatchAux work attempt fuel = false := by
  intro fuel
  induction fuel with
  | zero => intro attempt; rfl
  | succ fuel ih =>
    intro attempt
    obtain ⟨e, he⟩ := hfail attempt
    unfold addBatchAux
    rw [he]
    by_cases hz : fuel = 0
    · subst hz; simp
    · simp only [if_neg hz]
      exact ih (attempt + 1)

/-! ## Rate limiter: the admission section of `add_batch`
(src/ingestion.py, lines 93-105).

Source:

```
now = time.time()
while last_request_times and now - last_request_times[0] >= 1:
    last_request_times.popleft()
if len(last_request_times) >= MAX_REQUESTS_PER_SECOND:
    sleep_time = 1 - (now - last_request_times[0])
    await asyncio.sleep(sleep_time)
last_request_times.append(time.time())
```

`last_request_times` is a `deque(maxlen=MAX_REQUESTS_PER_SECOND)`; the
window is a list of timestamps, oldest first.  Times are rationals (the
code uses real-valued `time.time()` seconds).  The timestamp appended at
the end is a fresh `time.time()` call, modelled by the parameter
`tAppend` (equal to `now` in the no-sleep path up to the interval between
the two clock reads, and to the wake-up time after a sleep). -/

/-- The eviction loop: pop entries from the front while they are at least
1 second older than `now`. -/
def evictOld (now : ℚ) (w : List ℚ) : List ℚ :=
  w.dropWhile (fun t => decide (1 ≤ now - t))

/-- Append to a `deque(maxlen=maxlen)`: pushing into a full deque discards
the oldest (leftmost) entry. -/
def dequeAppend (maxlen : Nat) (w : List ℚ) (t : ℚ) : List ℚ :=
  (w ++ [t]).drop ((w ++ [t]).length - maxlen)

/-- Result of one rate-limiter admission: the new window and the sleep
duration, if any. -/
structure AdmitResult where
  window : List ℚ
  slept : Option ℚ
  deriving Repr, DecidableEq

/-- One admission through the rate-limiter section of `add_batch`:
evict, then either proceed immediately (window below the ceiling `C`) or
sleep `1 - (now - oldest)` seconds; in both cases append the fresh
timestamp `tAppend`. -/
def rateAdmit (C : Nat) (now tAppend : ℚ) (w : List ℚ) : AdmitResult :=
  let w' := evictOld now w
  if w'.length < C then
    { window := dequeAppend C w' tAppend, slept := none }
  else
    { window := dequeAppend C w' tAppend,
      slept := some (1 - (now - w'.headD 0)) }

theorem evictOld_complete (now : ℚ) (w : List ℚ)
    (hsort : w.Sorted (· ≤ ·)) :
    ∀ t ∈ evictOld now w, now - t < 1 := by
  induction w with
  | nil => intro t ht; simp [evictOld] at ht
  | cons x xs ih =>
    rw [List.sorted_cons] at hsort
    intro t ht
    unfold evictOld at ht
    rw [List.dropWhile_cons] at ht
    by_cases hx : 1 ≤ now - x
    · rw [if_pos (decide_eq_true hx)] at ht
      exact ih hsort.2 t ht
    · rw [if_neg (by simpa using hx)] at ht
      rw [List.mem_cons] at ht
      rcases ht with ht | ht
      · subst ht; linarith [hx]
      · have hxt : x ≤ t := hsort.1 t ht
        have : ¬(1 ≤ now - x) := hx
        linarith

theorem evictOld_kept (now : ℚ) (w : List ℚ) :
    ∀ t ∈ evictOld now w, t ∈ w := by
  intro t ht
  exact (List.dropWhile_sublist _).subset ht

/-! ## Concurrent callers of the rate limiter

`index_documents_async` runs the `add_batch` tasks concurrently on the
asyncio event loop.  Cooperative scheduling makes every contiguous
await-free region atomic; the suspension points inside the rate-limiter
section are exactly the `await asyncio.sleep(sleep_time)` call.  The
small-step semantics below makes this explicit for the admission section:

* `check i` — task `i` runs the whole region from `now = time.time()`
  through the eviction loop and the length test, in one atomic step; if
  the window is below the ceiling it also appends and finishes (no await
  on that path), otherwise it computes `sleep_time` and suspends;
* `wake i` — a suspended task resumes after its sleep and runs
  `last_request_times.append(time.time())`, with no re-check of the
  window (exactly as in the source);
* `advance t` — wall-clock time moves forward.

Time is in integer milliseconds (`1000` = the 1-second window); any such
schedule corresponds to a real-time execution of the source. -/

/-- The module-level ceiling `MAX_REQUESTS_PER_SECOND = 20`
(src/ingestion.py, line 26). -/
def MAX_REQUESTS_PER_SECOND : Nat := 20

/-- One second, in the integer-millisecond time scale of the concurrent
model. -/
def oneSecondMs : Int := 1000

/-- Millisecond version of the eviction loop. -/
def evictOldMs (now : Int) (w : List Int) : List Int :=
  w.dropWhile (fun t => decide (oneSecondMs ≤ now - t))

/-- Millisecond version of the bounded-deque append. -/
def dequeAppendMs (maxlen : Nat) (w : List Int) (t : Int) : List Int :=
  (w ++ [t]).drop ((w ++ [t]).length - maxlen)

/-- Status of one concurrent `add_batch` task with respect to the
rate-limiter section. -/
inductive RLTask : Type
  | ready
  | sleeping (wake : Int)
  | finished
  deriving Repr, DecidableEq

/-- Global state shared by the concurrent tasks: the wall clock, the
`last_request_times` deque, the log of all admission timestamps, and the
per-task statuses. -/
structure RLState where
  time : Int
  window : List Int
  admitted : List Int
  tasks : List RLTask
  deriving Repr

/-- A scheduler event: time advances, or one task runs one atomic region
of the admission section. -/
inductive RLStep : Type
  | advance (t : Int)
  | check (i : Nat)
  | wake (i : Nat)
  deriving Repr

/-- One small step of the concurrent semantics, with ceiling `C`.
Returns `none` when the event is not enabled (scheduler guard). -/
def applyRLStep (C : Nat) (s : RLState) : RLStep → Option RLState
  | .advance t => if s.time ≤ t then some { s with time := t } else none
  | .check i =>
    match s.tasks[i]? with
    | some .ready =>
      let w := evictOldMs s.time s.window
      if w.length < C then
        some { s with window := dequeAppendMs C w s.time,
                      admitted := s.admitted ++ [s.time],
                      tasks := s.tasks.set i .finished }
      else
        some { s with window := w,
                      tasks := s.tasks.set i
                        (.sleeping (s.time + (oneSecondMs - (s.time - w.headD 0)))) }
    | _ => none
  | .wake i =>
    match s.tasks[i]? with
    | some (.sleeping wt) =>
      if wt ≤ s.time then
        some { s with window := dequeAppendMs C s.window s.time,
                      admitted := s.admitted ++ [s.time],
                      tasks := s.tasks.set i .finished }
      else none
    | _ => none

/-- Run a schedule from a starting state. -/
def runRLSteps (C : Nat) (steps : List RLStep) (s : RLState) :
    Option RLState :=
  steps.foldlM (fun st stp => applyRLStep C st stp) s

/-- Number of admissions whose timestamps lie in the trailing 1-second
window ending at `t`. -/
def admittedWithin (log : List Int) (t : Int) : Nat :=
  (log.filter (fun a => decide (t - oneSecondMs < a) && decide (a ≤ t))).length

/-- Initial state for the overshoot schedule: clock at 0, empty window,
23 tasks ready.  At most 3 tasks are ever simultaneously mid-flight in the
schedule below (the first 20 run one after another), so it also respects
the `asyncio.Semaphore(3)` concurrency gate of the source. -/
def c8Init : RLState :=
  { time := 0, window := [], admitted := [], tasks := List.replicate 23 .ready }

/-- The overshoot schedule: tasks 0-19 are admitted one at a time at
5 ms intervals (fast path, window below the ceiling each time); tasks
20-22 all find the window full at t = 200 ms, each computes the same
sleep and suspends until t = 1000 ms; all three then wake and append
without re-checking. -/
def c8Trace : List RLStep :=
  ((List.range 20).map
    (fun (k : Nat) => [RLStep.advance (5 * (k : Int)), RLStep.check k])).flatten ++
  [.advance 200, .check 20, .check 21, .check 22,
   .advance 1000, .wake 20, .wake 21, .wake 22]

/-! ## Orchestrator: `index_documents_async` (src/ingestion.py, lines 30-164)

The function splits `documents` into contiguous slices of `batch_size`
(`batches = [documents[i:i+batch_size] for i in range(0, len, batch_size)]`),
runs `add_batch` for every batch, collects the boolean outcomes, counts the
successes, logs a summary, and returns `None` — it has no `return` with a
value, and its docstring says `Returns: None: Results are logged`.
The downstream call of batch `b` at attempt `a` is abstracted as
`work b a : Except ε Unit`.  The outcomes list is modelled in submission
order; the success count is order-independent, so completion-order
collection by `asyncio.as_completed` yields the same counts. -/

/-- Contiguous batching with fuel (one slice consumes at least one item
when `bs ≥ 1`, so fuel `= length` suffices). -/
def chunkAux {δ : Type} (bs : Nat) : Nat → List δ → List (List δ)
  | 0, _ => []
  | _ + 1, [] => []
  | fuel + 1, x :: xs => ((x :: xs).take bs) :: chunkAux bs fuel ((x :: xs).drop bs)

/-- The `batches` list built by `index_documents_async`. -/
def chunkList {δ : Type} (bs : Nat) (l : List δ) : List (List δ) :=
  chunkAux bs l.length l

/-- Modelled from the spec: the `DispatchResult` record of spec sections 3
and 4.6 (`{total_batches, succeeded, failed, per-batch outcome}`), which the
spec's `DispatchOrchestrator.run` contract says is returned to the caller.
No such type exists in the source; it is declared here only so that the
absence of a returned result can be stated. -/
structure DispatchResult where
  total_batches : Nat
  succeeded : Nat
  failed : Nat
  outcomes : List Bool
  deriving Repr, DecidableEq

/-- Everything observable about one `index_documents_async` run: the
per-batch outcomes, the logged summary counts, and the value returned to
the caller. -/
structure IndexRun where
  batchResults : List Bool
  successful : Nat
  totalBatches : Nat
  returned : Option DispatchResult
  deriving Repr, DecidableEq

/-- The orchestrator `index_documents_async`.  `work b a` is the outcome of
`vectorstore.aadd_documents` for batch index `b` at attempt index `a`; all
of its failures are absorbed inside `addBatch`, and the function falls off
the end of its body, returning `None` (modelled as `returned := none`). -/
def indexDocumentsAsync {ε δ : Type} (work : Nat → Nat → Except ε Unit)
    (documents : List δ) (batchSize maxRetries : Nat) : IndexRun :=
  let batches := chunkList batchSize documents
  let results := (List.range batches.length).map
    (fun b => addBatch (work b) maxRetries)
  { batchResults := results
    successful := results.count true
    totalBatches := batches.length
    returned := none }

/-! ## Single query embedding: `VertexAIEmbeddings.embed_query`
(src/vectorstore.py, lines 139-158). -/

/-- The `ValueError` raised by `embed_query`, carrying the message data
`Query too long: {tokens} tokens (limit {limit})`. -/
inductive QueryError : Type
  | queryTooLong (tokens limit : Nat)
  deriving Repr, DecidableEq

/-- Observable outcome of one `embed_query` call: the returned embedding
or the raised error, plus how many predict requests were issued. -/
structure QueryRun (E : Type) where
  result : Except QueryError E
  predictCalls : Nat

/-- The body of `embed_query`: count tokens; raise `ValueError` when the
count exceeds `max_tokens`; otherwise issue one predict request for the
single query instance and return the embedding values of its first
prediction (`predictFirst text`, one vector per instance per the service
contract). -/
def embedQuery {α E : Type} (cost : α → Nat) (maxTokens : Nat)
    (predictFirst : α → E) (text : α) : QueryRun E :=
  if maxTokens < cost text then
    { result := .error (.queryTooLong (cost text) maxTokens), predictCalls := 0 }
  else
    { result := .ok (predictFirst text), predictCalls := 1 }

/-! ## Claim theorems -/

theorem cost_le_of_mem_batch {α : Type} (cost : α → Nat) (T : Nat)
    (b : List α) (hb : batchCost cost b ≤ T) :
    ∀ x ∈ b, cost x ≤ T := by
  intro x hx
  have hmem : cost x ∈ b.map cost := List.mem_map_of_mem cost hx
  have hle : cost x ≤ (b.map cost).sum :=
    List.single_le_sum (fun y _ => Nat.zero_le y) (cost x) hmem
  exact le_trans hle hb

/-- C1: for every input list of texts and every configuration, every batch
that `embed_documents` submits to the downstream predict call has total
token cost at most `max_tokens`. -/
theorem C1_token_budget {α : Type} (cost : α → Nat) (G T : Nat)
    (texts : List α) (b : List α) (hb : b ∈ embedBatches cost G T texts) :
    batchCost cost b ≤ T :=
  embedLoopF_budget cost G T texts.length 0 texts b hb

theorem C1_token_budget_witness :
    [1000, 2000] ∈ embedBatches id 15 17500 [1000, 2000] ∧
    batchCost id [1000, 2000] ≤ 17500 :=
  ⟨by decide, C1_token_budget id 15 17500 [1000, 2000] [1000, 2000] (by decide)⟩

/-- C2: a batch whose work fails at every attempt is attempted exactly
`max_retries + 1` times, at attempt indices `0` through `max_retries` and
no further; then `add_batch` returns `False` and `_predict_with_retry`
re-raises the error of the last attempt. -/
theorem C2_retry_bound {ε β : Type} (workB : Nat → Except ε Unit)
    (workP : Nat → Except ε β) (maxRetries : Nat)
    (hB : ∀ a, ∃ e, workB a = .error e)
    (hP : ∀ a, ∃ e, workP a = .error e) :
    addBatch workB maxRetries = false ∧
    addBatchTrace workB maxRetries = List.range (maxRetries + 1) ∧
    predictRetryTrace workP 0 (maxRetries + 1) = List.range (maxRetries + 1) ∧
    ∃ e, workP maxRetries = .error e ∧
      predictWithRetry workP maxRetries = some (.error e) := by
  refine ⟨?_, ?_, ?_, ?_⟩
  · exact addBatchAux_allFail workB hB (maxRetries + 1) 0
  · unfold addBatchTrace
    rw [predictRetryTrace_allFail workB hB (maxRetries + 1) 0]
    exact (List.range_eq_range' _).symm
  · rw [predictRetryTrace_allFail workP hP (maxRetries + 1) 0]
    exact (List.range_eq_range' _).symm
  · obtain ⟨e, he⟩ := hP maxRetries
    refine ⟨e, he, ?_⟩
    unfold predictWithRetry
    rw [predictRetryAux_allFail workP hP (maxRetries + 1) 0 (by omega)]
    have : 0 + (maxRetries + 1) - 1 = maxRetries := by omega
    rw [this, he]

theorem C2_retry_bound_witness :
    addBatch (fun _ => (Except.error 7 : Except Nat Unit)) 3 = false ∧
    addBatchTrace (fun _ => (Except.error 7 : Except Nat Unit)) 3 = List.range 4 ∧
    predictRetryTrace (fun _ => (Except.error 7 : Except Nat Nat)) 0 4 = List.range 4 ∧
    ∃ e, (fun _ => (Except.error 7 : Except Nat Nat)) 3 = .error e ∧
      predictWithRetry (fun _ => (Except.error 7 : Except Nat Nat)) 3 =
        some (.error e) :=
  C2_retry_bound (fun _ => Except.error 7) (fun _ => Except.error 7) 3
    (fun _ => ⟨7, rfl⟩) (fun _ => ⟨7, rfl⟩)

/-- C3: with a positive configured batch size, the batches submitted by
`embed_documents` are contiguous slices of the input in order whose
concatenation is exactly the input minus the oversized items: every text
whose own cost is at most the budget appears in exactly one batch, with no
duplication and no omission. -/
theorem C3_completeness {α : Type} (cost : α → Nat) (G T : Nat)
    (texts : List α) (hG : 1 ≤ G) :
    (embedBatches cost G T texts).flatten =
      texts.filter (fun x => decide (cost x ≤ T)) :=
  embedLoopF_flatten cost G T hG texts.length 0 texts le_rfl

theorem C3_completeness_witness :
    (embedBatches id 15 17500 [100, 99999, 200]).flatten =
      [100, 99999, 200].filter (fun x => decide (id x ≤ 17500)) :=
  C3_completeness id 15 17500 [100, 99999, 200] (by decide)

/-- C4: the shrink loop: a successful fit of size `s` means every size
from `G` down to `s + 1` was tried at the same cursor and overflowed the
budget, while size `s` fits; when no size fits, the single item at the
cursor alone exceeds the budget and is skipped, the cursor advances by 1,
and the remaining items are re-processed from the configured size `G`.
On costs `[17000, 1000 x 14]` with budget 17500 and batch size 15, the
17000-cost item is emitted alone and the remaining 14 form one batch. -/
theorem C4_shrink_and_skip :
    (∀ (α : Type) (cost : α → Nat) (T G : Nat) (l : List α) (s : Nat),
       findFit cost T l G = some s →
         1 ≤ s ∧ s ≤ G ∧ batchCost cost (l.take s) ≤ T ∧
         ∀ k, s < k → k ≤ G → T < batchCost cost (l.take k)) ∧
    (∀ (α : Type) (cost : α → Nat) (T G : Nat) (x : α) (rest : List α),
       findFit cost T (x :: rest) G = none →
         (1 ≤ G → T < cost x) ∧
         embedBatches cost G T (x :: rest) = embedBatches cost G T rest) ∧
    embedBatches id 15 17500 (17000 :: List.replicate 14 1000) =
      [[17000], List.replicate 14 1000] := by
  refine ⟨?_, ?_, by decide⟩
  · intro α cost T G l s h
    exact ⟨(findFit_pos cost T l G s h).1, (findFit_pos cost T l G s h).2,
      findFit_fits cost T l G s h, findFit_tried cost T l G s h⟩
  · intro α cost T G x rest h
    constructor
    · intro hG
      have := findFit_none cost T (x :: rest) G h 1 le_rfl hG
      simpa [batchCost] using this
    · show (embedLoopF cost G T (x :: rest).length 0 (x :: rest)).1 = _
      simp only [List.length_cons]
      unfold embedLoopF
      rw [h]
      exact embedLoopF_fst_index_irrel cost G T rest.length 1 0 rest

theorem C4_shrink_and_skip_witness :
    17500 < batchCost id ((17000 :: List.replicate 14 1000).take 2) ∧
    embedBatches id 15 100 [17000] = embedBatches id 15 100 [] :=
  ⟨(C4_shrink_and_skip.1 Nat id 17500 15 (17000 :: List.replicate 14 1000) 1
      (by decide)).2.2.2 2 (by decide) (by decide),
   (C4_shrink_and_skip.2.1 Nat id 100 15 17000 [] (by decide)).2⟩

/-- C5: with a positive configured batch size, an item whose token cost
exceeds the budget never occurs in any submitted batch; the skip log is
exactly the oversized items, each identified by its input index — so
skipped items are recorded separately and are disjoint from every batch
outcome. -/
theorem C5_oversized_skip {α : Type} (cost : α → Nat) (G T : Nat)
    (texts : List α) (hG : 1 ≤ G) :
    (∀ b ∈ embedBatches cost G T texts, ∀ x ∈ b, cost x ≤ T) ∧
    embedSkipped cost G T texts =
      (List.enumFrom 0 texts).filter (fun p => decide (T < cost p.2)) := by
  constructor
  · intro b hb
    exact cost_le_of_mem_batch cost T b
      (embedLoopF_budget cost G T texts.length 0 texts b hb)
  · exact embedLoopF_skipped cost G T hG texts.length 0 texts le_rfl

theorem C5_oversized_skip_witness :
    id 100 ≤ 17500 ∧
    embedSkipped id 15 17500 [100, 99999, 200] =
      (List.enumFrom 0 [100, 99999, 200]).filter
        (fun p => decide (17500 < id p.2)) :=
  ⟨(C5_oversized_skip id 15 17500 [100, 99999, 200] (by decide)).1
      [100] (by decide) 100 (by decide),
   (C5_oversized_skip id 15 17500 [100, 99999, 200] (by decide)).2⟩

/-- C6: each admission in `add_batch` first evicts the window entries at
least 1 second old (every surviving entry is younger than 1 second and was
in the original window); if the window is then strictly below the ceiling,
it appends the fresh timestamp and records no sleep; otherwise it sleeps
`1 - (now - oldest)` seconds and then appends the admission timestamp.
Admission is a total function: it only delays, never errors. -/
theorem C6_rate_limiter (C : Nat) (now tAppend : ℚ) (w : List ℚ)
    (hsort : w.Sorted (· ≤ ·)) :
    (∀ t ∈ evictOld now w, t ∈ w ∧ now - t < 1) ∧
    ((evictOld now w).length < C →
       rateAdmit C now tAppend w =
         { window := dequeAppend C (evictOld now w) tAppend, slept := none }) ∧
    (C ≤ (evictOld now w).length →
       rateAdmit C now tAppend w =
         { window := dequeAppend C (evictOld now w) tAppend,
           slept := some (1 - (now - (evictOld now w).headD 0)) }) := by
  refine ⟨?_, ?_, ?_⟩
  · intro t ht
    exact ⟨evictOld_kept now w t ht, evictOld_complete now w hsort t ht⟩
  · intro h
    unfold rateAdmit
    rw [if_pos h]
  · intro h
    unfold rateAdmit
    rw [if_neg (by omega)]

theorem C6_rate_limiter_witness :
    rateAdmit 20 2 2 [] =
      { window := dequeAppend 20 (evictOld 2 []) 2, slept := none } :=
  (C6_rate_limiter 20 2 2 [] (by simp)).2.1 (by decide)

/-- C7 counterexample: `index_documents_async` returns `None`, not a
`DispatchResult` — here, on a one-document input whose every attempt
fails, the value handed back to the caller is `none`, so there is no
result object carrying `total_batches`, `succeeded`, `failed` or the
per-batch outcomes for the caller to inspect. -/
theorem C7_returns_none :
    (indexDocumentsAsync (fun _ _ => (Except.error () : Except Unit Unit))
      [()] 15 3).returned = none :=
  rfl

/-- C7 (amended): `index_documents_async` always returns normally — even
when every batch fails, a run with 0 successes is a normal return whose
logged summary reports `0` successes out of the full batch count — but it
returns `None`: the outcomes exist only in the logs, and no
`DispatchResult` is handed to the caller. -/
theorem C7_normal_return {ε δ : Type} (work : Nat → Nat → Except ε Unit)
    (documents : List δ) (batchSize maxRetries : Nat) :
    (indexDocumentsAsync work documents batchSize maxRetries).returned =
      none ∧
    (indexDocumentsAsync work documents batchSize maxRetries).totalBatches =
      (chunkList batchSize documents).length ∧
    (indexDocumentsAsync work documents batchSize maxRetries).successful =
      (indexDocumentsAsync work documents batchSize maxRetries).batchResults.count
        true ∧
    ((∀ b a, ∃ e, work b a = .error e) →
       (indexDocumentsAsync work documents batchSize maxRetries).successful =
         0 ∧
       (indexDocumentsAsync work documents batchSize maxRetries).batchResults =
         List.replicate (chunkList batchSize documents).length false) := by
  refine ⟨rfl, rfl, rfl, ?_⟩
  intro hfail
  have hres : (indexDocumentsAsync work documents batchSize
      maxRetries).batchResults =
      List.replicate (chunkList batchSize documents).length false := by
    show (List.range (chunkList batchSize documents).length).map
        (fun b => addBatch (work b) maxRetries) = _
    rw [List.eq_replicate_iff]
    refine ⟨by simp, ?_⟩
    intro r hr
    rw [List.mem_map] at hr
    obtain ⟨b, _, hb⟩ := hr
    rw [← hb]
    exact addBatchAux_allFail (work b) (hfail b) (maxRetries + 1) 0
  refine ⟨?_, hres⟩
  show (indexDocumentsAsync work documents batchSize
      maxRetries).batchResults.count true = 0
  rw [hres, List.count_replicate]
  simp

theorem C7_normal_return_witness :
    (indexDocumentsAsync (fun _ _ => (Except.error 0 : Except Nat Unit))
      [0, 1] 1 3).successful = 0 ∧
    (indexDocumentsAsync (fun _ _ => (Except.error 0 : Except Nat Unit))
      [0, 1] 1 3).batchResults =
      List.replicate (chunkList 1 [0, 1]).length false :=
  (C7_normal_return (fun _ _ => Except.error 0) [0, 1] 1 3).2.2.2
    (fun _ _ => ⟨0, rfl⟩)

/-- C8: the admission decision and the window append are not atomic: the
`await asyncio.sleep(sleep_time)` suspension sits between them and the
append is unconditional on resumption.  On the schedule `c8Trace` —
realizable under `asyncio.Semaphore(3)` — tasks 20, 21 and 22 all observe
the full window at t = 0.2 s, all compute the same sleep, and all append
on waking, yielding 22 admissions inside the trailing 1-second window
ending at t = 1 s, exceeding `MAX_REQUESTS_PER_SECOND = 20`. -/
theorem C8_rate_window_overshoot :
    (runRLSteps MAX_REQUESTS_PER_SECOND c8Trace c8Init).map
      (fun s => admittedWithin s.admitted 1000) = some 22 ∧
    MAX_REQUESTS_PER_SECOND < 22 :=
  ⟨by decide, by decide⟩

/-- C9: `embed_documents` returns exactly one embedding per non-skipped
input text, in input order; when some input alone exceeds the budget the
returned list is strictly shorter than the input, so there is no
placeholder for the skipped text and positional correspondence with the
input is lost from the first skip onward. -/
theorem C9_results_shape {α E : Type} (embed : α → E) (cost : α → Nat)
    (G T : Nat) (texts : List α) (hG : 1 ≤ G) :
    embedResults embed cost G T texts =
      (texts.filter (fun x => decide (cost x ≤ T))).map embed ∧
    ∀ x ∈ texts, T < cost x →
      (embedResults embed cost G T texts).length < texts.length := by
  have hflat : (embedBatches cost G T texts).flatten =
      texts.filter (fun x => decide (cost x ≤ T)) :=
    embedLoopF_flatten cost G T hG texts.length 0 texts le_rfl
  have hres : embedResults embed cost G T texts =
      (texts.filter (fun x => decide (cost x ≤ T))).map embed := by
    unfold embedResults
    rw [← List.map_flatten, hflat]
  refine ⟨hres, ?_⟩
  intro x hx hT
  rw [hres, List.length_map]
  apply List.length_filter_lt_length_iff_exists.mpr
  refine ⟨x, hx, ?_⟩
  simp only [decide_eq_true_eq]
  omega

theorem C9_results_shape_witness :
    embedResults id id 15 17500 [100, 99999, 200] =
      ([100, 99999, 200].filter (fun x => decide (id x ≤ 17500))).map id ∧
    (embedResults id id 15 17500 [100, 99999, 200]).length <
      [100, 99999, 200].length :=
  ⟨(C9_results_shape id id 15 17500 [100, 99999, 200] (by decide)).1,
   (C9_results_shape id id 15 17500 [100, 99999, 200] (by decide)).2
      99999 (by decide) (by decide)⟩

/-- C10: `embed_query` raises `ValueError` exactly when the token count
exceeds `max_tokens`, in which case no predict request is issued;
otherwise it issues one predict request and returns the embedding values
of the first prediction for the single query instance. -/
theorem C10_embed_query {α E : Type} (cost : α → Nat) (maxTokens : Nat)
    (predictFirst : α → E) (text : α) :
    ((embedQuery cost maxTokens predictFirst text).result =
        .error (.queryTooLong (cost text) maxTokens) ↔
      maxTokens < cost text) ∧
    (maxTokens < cost text →
       embedQuery cost maxTokens predictFirst text =
         { result := .error (.queryTooLong (cost text) maxTokens),
           predictCalls := 0 }) ∧
    (cost text ≤ maxTokens →
       embedQuery cost maxTokens predictFirst text =
         { result := .ok (predictFirst text), predictCalls := 1 }) := by
  unfold embedQuery
  by_cases h : maxTokens < cost text
  · rw [if_pos h]
    refine ⟨⟨fun _ => h, fun _ => rfl⟩, fun _ => rfl, fun hle => absurd h (by omega)⟩
  · rw [if_neg h]
    refine ⟨⟨fun habs => ?_, fun habs => absurd habs h⟩,
      fun habs => absurd habs h, fun _ => rfl⟩
    simp at habs

theorem C10_embed_query_witness :
    embedQuery id 17500 (fun n => n + 1) 20000 =
      { result := .error (.queryTooLong (id 20000) 17500),
        predictCalls := 0 } ∧
    embedQuery id 17500 (fun n => n + 1) 100 =
      { result := .ok ((fun n => n + 1) 100), predictCalls := 1 } :=
  ⟨(C10_embed_query id 17500 (fun n => n + 1) 20000).2.1 (by decide),
   (C10_embed_query id 17500 (fun n => n + 1) 100).2.2 (by decide)⟩
